import Mathlib

/-!
# Verification of the sikakuustu bot core (src/bot.py)

Shallow embedding of the preference store, the reply-composition pipeline,
the timer/alarm scheduler and the durable-storage layer of `src/bot.py`,
together with proofs settling the specification claims.

Python strings are modelled as `List Char` (a Python `str` is a sequence of
Unicode code points); Python dicts are modelled as insertion-ordered
association lists with unique keys, which is exactly the observable
behaviour of `dict`.
-/

namespace Sikaku

/-! ## Reply composer — `reply_helper` in `on_message` (src/bot.py lines 339-347)

```python
final_reply = reply_text
if self.greeting_prefs.get(author_id_str, False):
    nickname = self.nicknames.get(author_id_str, message.author.display_name)
    final_reply = f"{nickname}、{final_reply}"
if self.silent_prefs.get(author_id_str, False):
    if not final_reply.startswith("@silent\n"):
        final_reply = f"@silent\n{final_reply}"
```
-/

/-- The silent marker literal `"@silent\n"` from src/bot.py line 346. -/
def marker : List Char := ['@', 's', 'i', 'l', 'e', 'n', 't', '\n']

/-- The per-user preference record as read by `reply_helper`:
`greeting_prefs.get(uid, False)`, `silent_prefs.get(uid, False)`,
`nicknames.get(uid, fallback)`. -/
structure Prefs where
  greeting : Bool
  silent : Bool
  nickname : Option (List Char)

/-- First modifier (bot.py 341-344): if the greeting flag is on, prefix
`f"{nickname}、{final_reply}"` where `nickname` is the stored nickname if
present, else the caller's display name.  Note the separator is the
ideographic comma `'、'` (U+3001), with no space. -/
def greetStep (p : Prefs) (fallback s : List Char) : List Char :=
  if p.greeting then (p.nickname.getD fallback) ++ '、' :: s else s

/-- Second modifier (bot.py 345-347): if the silent flag is on, prepend
`"@silent\n"` unless the string already starts with that exact marker. -/
def silentStep (p : Prefs) (s : List Char) : List Char :=
  if p.silent then (if marker.isPrefixOf s then s else marker ++ s) else s

/-- The full composition pipeline of `reply_helper`: greeting first, then
silent. -/
def composeReply (p : Prefs) (fallback s : List Char) : List Char :=
  silentStep p (greetStep p fallback s)

/-- Number of leading copies of the silent marker at the front of a string. -/
def leadingMarkers (s : List Char) : Nat :=
  if marker.isPrefixOf s then 1 + leadingMarkers (s.drop marker.length) else 0
termination_by s.length
decreasing_by
  rename_i h
  have hpre : marker <+: s := by
    simpa using h
  have hle : marker.length ≤ s.length := hpre.length_le
  have hm : marker.length = 8 := rfl
  simp only [List.length_drop]
  omega

/-- A concrete stored record: greeting on, silent off, nickname `"Aki"`. -/
def prefsAki : Prefs :=
  { greeting := true, silent := false, nickname := some ('A' :: 'k' :: 'i' :: []) }

/-- The same record with silent also enabled. -/
def prefsAkiSilent : Prefs :=
  { greeting := true, silent := true, nickname := some ('A' :: 'k' :: 'i' :: []) }

/-! ## Notification scheduler — `ShikakuUtsu.check_timers` (src/bot.py 302-321),
`timer_cmd` (src/bot.py 658-677), `alarm_cmd` (src/bot.py 680-706)

Timers are dicts `{"time": aware-datetime, "channel_id": int, "user_id": int,
"message": str}` appended to the in-memory list `active_timers`.  Instants
are modelled as integers counting microseconds (the resolution of Python
datetimes) since an arbitrary epoch. -/

/-- One pending notification, as built by `timer_cmd`/`alarm_cmd`; every
entry carries a (truthy) `"time"` value, so the guard
`t.get("time") and t["time"] <= now` of `check_timers` reduces to the
comparison. -/
structure TimerEntry where
  time : Int
  channel_id : Nat
  user_id : Nat
  message : List Char
deriving DecidableEq

/-- The `get_channel` results that `check_timers` distinguishes with
`isinstance(channel, (discord.TextChannel, discord.Thread))`. -/
inductive ChannelKind where
  | text
  | thread
  | other
deriving DecidableEq

/-- External collaborators consulted during one tick of `check_timers`:
`get_channel`, `get_user` (for the mention text) and the outcome of
`channel.send` (`true` = delivered; `false` = the send raised and the
exception was caught and logged at src/bot.py 316-317). -/
structure DeliveryEnv where
  resolve : Nat → Option ChannelKind
  getUser : Nat → Option (List Char)
  send : Nat → List Char → Bool

def isTextLike : Option ChannelKind → Bool
  | some .text => true
  | some .thread => true
  | _ => false

/-- Payload text: `mention = user.mention if user else f"<@{t.get('user_id')}>"` followed by
`f"{mention} {t.get('message', '')}"` (src/bot.py 313-315). -/
def timerPayload (env : DeliveryEnv) (t : TimerEntry) : List Char :=
  ((env.getUser t.user_id).getD
    ('<' :: '@' :: ((Nat.repr t.user_id).toList ++ '>' :: []))) ++ ' ' :: t.message

/-- Removal `self.active_timers.remove(t)` wrapped in `try/except ValueError: pass`
(src/bot.py 318-321): remove the first occurrence of `t`, no-op when absent. -/
def removeFirst : List TimerEntry → TimerEntry → List TimerEntry
  | [], _ => []
  | x :: xs, t => if x = t then xs else x :: removeFirst xs t

/-- Due selection `due = [t for t in list(self.active_timers) if t.get("time") and t["time"] <= now]`
(src/bot.py 305-308). -/
def dueList (timers : List TimerEntry) (now : Int) : List TimerEntry :=
  timers.filter (fun t => t.time ≤ now)

/-- Observable outcome of one tick: the delivery attempts made (entry and
send outcome, in order) and the pending list left behind. -/
structure TickResult where
  attempts : List (TimerEntry × Bool)
  remaining : List TimerEntry
deriving DecidableEq

/-- Body of the `for t in due:` loop (src/bot.py 309-321): the send is
attempted only when the channel resolves to a text channel or thread (its
success or failure is recorded; an exception is caught, not propagated),
and the entry is removed from the pending list regardless. -/
def tickStep (env : DeliveryEnv) (acc : TickResult) (t : TimerEntry) : TickResult :=
  { attempts :=
      if isTextLike (env.resolve t.channel_id) then
        acc.attempts ++ [(t, env.send t.channel_id (timerPayload env t))]
      else acc.attempts
    remaining := removeFirst acc.remaining t }

/-- One run of the periodic scan `check_timers` (src/bot.py 302-321). -/
def check_timers (env : DeliveryEnv) (timers : List TimerEntry) (now : Int) :
    TickResult :=
  (dueList timers now).foldl (tickStep env) ⟨[], timers⟩

/-- The rejection reply `"0時間0分は設定できないよ。"` of `/timer` (src/bot.py 665). -/
def timerRejectMsg : List Char := "0時間0分は設定できないよ。".toList

/-- Default timer message `"時間だよ！"` (src/bot.py 674). -/
def defaultTimerMsg : List Char := "時間だよ！".toList

/-- Default alarm message `"起きて！"` (src/bot.py 702). -/
def defaultAlarmMsg : List Char := "起きて！".toList

/-- Command `/timer` (src/bot.py 658-677): reject `hours == 0 and minutes == 0`
without touching any state, otherwise append exactly one entry due at
`now + timedelta(hours=hours, minutes=minutes)`. -/
def timer_cmd (hours minutes : Nat) (message : Option (List Char)) (now : Int)
    (chan uid : Nat) (timers : List TimerEntry) :
    Except (List Char) Unit × List TimerEntry :=
  if hours = 0 ∧ minutes = 0 then (.error timerRejectMsg, timers)
  else (.ok (), timers ++
    [⟨now + ((hours : Int) * 3600 + (minutes : Int) * 60) * 1000000, chan, uid,
      message.getD defaultTimerMsg⟩])

/-- Microseconds per calendar day. -/
def microsPerDay : Int := 86400000000

/-- A timezone-aware local datetime in the configured zone, split into a
calendar day and the microseconds elapsed within that day.  The configured
zone (`BOT_TZ`, default `Asia/Tokyo` = UTC+9) is modelled with a fixed UTC
offset; the default zone has no daylight-saving transitions. -/
structure LocalDT where
  day : Int
  tod : Int

def LocalDT.toMicros (d : LocalDT) : Int := d.day * microsPerDay + d.tod

/-- Truncation `now_local.replace(hour=hour, minute=minute, second=0, microsecond=0)`
(src/bot.py 688-691). -/
def replaceHM (d : LocalDT) (hour minute : Nat) : LocalDT :=
  ⟨d.day, ((hour : Int) * 3600 + (minute : Int) * 60) * 1000000⟩

/-- Advance step `if target_local <= now_local: target_local += datetime.timedelta(days=1)`
(src/bot.py 695-696): today's hh:mm, advanced by exactly one calendar day
when not strictly after now.  Aware datetimes compare by instant; with a
fixed offset that is the comparison of local microsecond counts. -/
def alarmTargetLocal (hour minute : Nat) (now : LocalDT) : LocalDT :=
  if (replaceHM now hour minute).toMicros ≤ now.toMicros then
    ⟨(replaceHM now hour minute).day + 1, (replaceHM now hour minute).tod⟩
  else replaceHM now hour minute

/-- Conversion `target_utc = target_local.astimezone(datetime.timezone.utc)`
(src/bot.py 697): conversion to UTC subtracts the zone's fixed offset. -/
def alarmDueUtc (hour minute : Nat) (nowLocal : LocalDT) (offset : Int) : Int :=
  (alarmTargetLocal hour minute nowLocal).toMicros - offset

/-- Command `/alarm` (src/bot.py 680-706): append exactly one entry due at the
computed UTC instant. -/
def alarm_cmd (hour minute : Nat) (message : Option (List Char))
    (nowLocal : LocalDT) (offset : Int) (chan uid : Nat)
    (timers : List TimerEntry) : List TimerEntry :=
  timers ++ [⟨alarmDueUtc hour minute nowLocal offset, chan, uid,
    message.getD defaultAlarmMsg⟩]

/-! ## Preference repository — the five in-memory maps of `ShikakuUtsu`
(src/bot.py 250-257), `save_bot_data` (264-273), `reset_my_settings_cmd`
(470-480) and the per-user read operations.

A Python dict is modelled as an insertion-ordered association list whose
keys are unique (`keysNodup`). -/

/-- Lookup `d.get(k)` / `d.get(k, default)` via `Option.getD`: first (only) match. -/
def dictGet {α : Type} (k : List Char) : List (List Char × α) → Option α
  | [] => none
  | kv :: rest => if kv.1 = k then some kv.2 else dictGet k rest

/-- Pop `d.pop(k, None)`: drop the entry with key `k` when present. -/
def popKey {α : Type} (k : List Char) : List (List Char × α) → List (List Char × α)
  | [] => []
  | kv :: rest => if kv.1 = k then rest else kv :: popKey k rest

/-- Keys of a Python dict are unique. -/
abbrev keysNodup {α : Type} (l : List (List Char × α)) : Prop :=
  (l.map Prod.fst).Nodup

/-- The five parallel preference maps (src/bot.py 250-257); this is also the
shape of the persisted document (src/bot.py 37-43, 264-269). -/
structure BotState where
  nicknames : List (List Char × List Char)
  greeting_prefs : List (List Char × Bool)
  silent_prefs : List (List Char × Bool)
  memos : List (List Char × List (List Char × List Char))
  model_prefs : List (List Char × List Char)
deriving DecidableEq

/-- The default model identifier `"gemini-1.5-flash"` (src/bot.py 396, 489). -/
def defaultModel : List Char := "gemini-1.5-flash".toList

/-- Read `nicknames.get(uid)` — absent means the caller's fallback is used. -/
def getNickname (st : BotState) (uid : List Char) : Option (List Char) :=
  dictGet uid st.nicknames

/-- Read `greeting_prefs.get(uid, False)` (src/bot.py 341, 487). -/
def getGreeting (st : BotState) (uid : List Char) : Bool :=
  (dictGet uid st.greeting_prefs).getD false

/-- Read `silent_prefs.get(uid, False)` (src/bot.py 345, 488). -/
def getSilent (st : BotState) (uid : List Char) : Bool :=
  (dictGet uid st.silent_prefs).getD false

/-- Read `model_prefs.get(uid, "gemini-1.5-flash")` (src/bot.py 396, 489). -/
def getModel (st : BotState) (uid : List Char) : List Char :=
  (dictGet uid st.model_prefs).getD defaultModel

/-- Read `memos.get(user_id, default).get(keyword)` with an empty-dict default (src/bot.py 526). -/
def getMemo (st : BotState) (uid kw : List Char) : Option (List Char) :=
  dictGet kw ((dictGet uid st.memos).getD [])

/-- Command `/reset_my_settings` (src/bot.py 470-480): pops the user's entry from
`nicknames`, `greeting_prefs`, `silent_prefs` and `model_prefs` — the
`memos` map is not touched — then triggers a full-document save.  The
second component is the document handed to the save (`None` would model a
command that does not save). -/
def reset_my_settings (uid : List Char) (st : BotState) : BotState × Option BotState :=
  let st' : BotState :=
    { nicknames := popKey uid st.nicknames
      greeting_prefs := popKey uid st.greeting_prefs
      silent_prefs := popKey uid st.silent_prefs
      memos := st.memos
      model_prefs := popKey uid st.model_prefs }
  (st', some st')

/-- A state in which user `"7"` has every preference set and one memo. -/
def stFull : BotState :=
  { nicknames := [(['7'], 'A' :: 'k' :: 'i' :: [])]
    greeting_prefs := [(['7'], true)]
    silent_prefs := [(['7'], true)]
    memos := [(['7'], [('k' :: [], 'v' :: [])])]
    model_prefs := [(['7'], "gemini-1.5-pro".toList)] }

/-- A pending entry that is already due at instant 0. -/
def entryDue : TimerEntry := ⟨0, 99, 1, []⟩

/-- An environment in which `get_channel` resolves nothing (e.g. the channel
was deleted or is not cached). -/
def envNoChannel : DeliveryEnv :=
  ⟨fun _ => none, fun _ => none, fun _ _ => true⟩

/-! ## Object identity of the default document — `DEFAULT_DATA` (src/bot.py
36-43) and the fallback `return DEFAULT_DATA.copy()` of `load_data`
(src/bot.py 58).

To observe Python object identity, this fragment models dicts as
heap-allocated objects: an address maps to an ordered list of (key, value)
pairs, and a value is a string, a boolean or a reference to another dict.
`dict.copy()` is a shallow copy: a fresh outer object holding the same
value references. -/

inductive PyVal where
  | str (s : List Char)
  | bool (b : Bool)
  | ref (a : Nat)
deriving DecidableEq

/-- Contents of one heap-allocated dict. -/
abbrev PyObj := List (List Char × PyVal)

structure Heap where
  mem : List (Nat × PyObj)
  next : Nat
deriving DecidableEq

def heapGet (h : Heap) (a : Nat) : PyObj :=
  ((h.mem.find? (fun e => e.1 == a)).map Prod.snd).getD []

def heapSet : List (Nat × PyObj) → Nat → PyObj → List (Nat × PyObj)
  | [], _, _ => []
  | e :: rest, a, o => if e.1 = a then (a, o) :: rest else e :: heapSet rest a o

/-- Allocate a fresh object. -/
def alloc (h : Heap) (o : PyObj) : Heap × Nat :=
  (⟨h.mem ++ [(h.next, o)], h.next + 1⟩, h.next)

/-- Upsert `d[k] = v` on the contents of a dict. -/
def objSet : PyObj → List Char → PyVal → PyObj
  | [], k, v => [(k, v)]
  | kv :: rest, k, v => if kv.1 = k then (k, v) :: rest else kv :: objSet rest k v

/-- In-place mutation `d[k] = v` of the dict at address `a`. -/
def dictSetItem (h : Heap) (a : Nat) (k : List Char) (v : PyVal) : Heap :=
  ⟨heapSet h.mem a (objSet (heapGet h a) k v), h.next⟩

/-- Module initialisation of `DEFAULT_DATA` (src/bot.py 37-43): the dict
literal allocates five fresh empty inner dicts (addresses 0-4) and the
outer dict (address 5) holding references to them. -/
def initHeap : Heap :=
  ⟨[(0, []), (1, []), (2, []), (3, []), (4, []),
    (5, [("nicknames".toList, .ref 0), ("greeting_prefs".toList, .ref 1),
      ("silent_prefs".toList, .ref 2), ("memos".toList, .ref 3),
      ("model_prefs".toList, .ref 4)])], 6⟩

/-- Address of the module-level constant `DEFAULT_DATA`. -/
def DEFAULT_DATA_addr : Nat := 5

/-- Shallow `dict.copy()`: a fresh outer object with the same (key, value)
pairs — inner references included. -/
def dict_copy (h : Heap) (a : Nat) : Heap × Nat := alloc h (heapGet h a)

/-- Fallback branch `return DEFAULT_DATA.copy()` of `load_data`
(src/bot.py 58). -/
def load_data_default (h : Heap) : Heap × Nat := dict_copy h DEFAULT_DATA_addr

/-- Dereference the inner dict an outer document presents under `key`. -/
def innerDict (h : Heap) (outer : Nat) (key : List Char) : PyObj :=
  match dictGet key (heapGet h outer) with
  | some (.ref a) => heapGet h a
  | _ => []

/-- Heap after the first defaulted load. -/
def heapAfterLoad : Heap := (load_data_default initHeap).1

/-- Outer address returned by the first defaulted load. -/
def loadedAddr : Nat := (load_data_default initHeap).2

/-- Heap after the in-place mutation `result["nicknames"]["7"] = "Aki"`
performed through the first load result (whose `"nicknames"` value is the
reference to address 0, as the theorem below checks). -/
def heapMutated : Heap :=
  dictSetItem heapAfterLoad 0 ('7' :: []) (.str "Aki".toList)

/-! ## Durable store — `load_data` (src/bot.py 50-58) and
`atomic_write_json` (src/bot.py 61-66)

```python
def load_data() -> dict:
    try:
        if os.path.exists(DATA_FILE):
            with open(DATA_FILE, "r", encoding="utf-8") as f:
                return json.load(f)
    except (json.JSONDecodeError, OSError):
        pass
    return DEFAULT_DATA.copy()

def atomic_write_json(path: str, data: dict):
    tmp = path + ".tmp"
    with open(tmp, "w", encoding="utf-8") as f:
        json.dump(data, f, ensure_ascii=False, indent=2)
    os.replace(tmp, path)
```

`json.dump(data, f, ensure_ascii=False, indent=2)` is modelled by a
character-exact printer for the five-map document, and `json.load` by a
whitespace-tolerant JSON parser over the decoded text.  Model
restrictions: JSON numbers are limited to optionally-signed integers (the
program never stores numbers), and `\u` escapes are decoded without
surrogate pairing. -/

/-- A parsed JSON value, as materialised by `json.load`. -/
inductive JValue where
  | null
  | bool (b : Bool)
  | num (n : Int)
  | str (s : List Char)
  | arr (elems : List JValue)
  | obj (members : List (List Char × JValue))

/-- Whitespace accepted between JSON tokens. -/
def isWs (c : Char) : Bool :=
  c = ' ' || c = '\n' || c = '\t' || c = '\r'

def skipWs : List Char → List Char
  | [] => []
  | c :: rest => if isWs c then skipWs rest else c :: rest

def hexDigit : Char → Option Nat := fun c =>
  if '0' ≤ c ∧ c ≤ '9' then some (c.toNat - 48)
  else if 'a' ≤ c ∧ c ≤ 'f' then some (c.toNat - 87)
  else if 'A' ≤ c ∧ c ≤ 'F' then some (c.toNat - 55)
  else none

/-- String-body scanner: the opening quote has been consumed; read characters
and escapes up to the closing quote, returning the decoded text and the
remaining input. -/
def parseStringBody : Nat → List Char → Option (List Char × List Char)
  | 0, _ => none
  | Nat.succ _, [] => none
  | Nat.succ fuel, c :: rest =>
    if c = '"' then some ([], rest)
    else if c = '\\' then
      match rest with
      | [] => none
      | e :: r2 =>
        if e = '"' then (parseStringBody fuel r2).map (fun p => ('"' :: p.1, p.2))
        else if e = '\\' then (parseStringBody fuel r2).map (fun p => ('\\' :: p.1, p.2))
        else if e = '/' then (parseStringBody fuel r2).map (fun p => ('/' :: p.1, p.2))
        else if e = 'n' then (parseStringBody fuel r2).map (fun p => ('\n' :: p.1, p.2))
        else if e = 't' then (parseStringBody fuel r2).map (fun p => ('\t' :: p.1, p.2))
        else if e = 'r' then (parseStringBody fuel r2).map (fun p => ('\r' :: p.1, p.2))
        else if e = 'b' then (parseStringBody fuel r2).map (fun p => (Char.ofNat 8 :: p.1, p.2))
        else if e = 'f' then (parseStringBody fuel r2).map (fun p => (Char.ofNat 12 :: p.1, p.2))
        else if e = 'u' then
          match r2 with
          | h1 :: h2 :: h3 :: h4 :: r3 =>
            match hexDigit h1, hexDigit h2, hexDigit h3, hexDigit h4 with
            | some a, some b, some c4, some d =>
              (parseStringBody fuel r3).map
                (fun p => (Char.ofNat (((a * 16 + b) * 16 + c4) * 16 + d) :: p.1, p.2))
            | _, _, _, _ => none
          | _ => none
        else none
    else (parseStringBody fuel rest).map (fun p => (c :: p.1, p.2))

def spanDigits : List Char → List Char × List Char
  | [] => ([], [])
  | c :: rest =>
    if c.isDigit then
      ((c :: (spanDigits rest).1), (spanDigits rest).2)
    else ([], c :: rest)

def digitsToNat (ds : List Char) : Nat :=
  ds.foldl (fun n c => n * 10 + (c.toNat - 48)) 0

/-- Recursive-descent mode: a full value, the members of an object (from the
first key on), or the elements of an array (from the first element on). -/
inductive PMode where
  | value
  | members
  | elems

/-- The JSON grammar of `json.load`, fuel-indexed to stay structurally
recursive (and hence kernel-evaluable). -/
def parseRun : Nat → PMode → List Char → Option (JValue × List Char)
  | 0, _, _ => none
  | Nat.succ fuel, PMode.value, s =>
    match skipWs s with
    | [] => none
    | c :: rest =>
      if c = '{' then
        match skipWs rest with
        | [] => none
        | c2 :: r2 =>
          if c2 = '}' then some (.obj [], r2)
          else parseRun fuel .members (c2 :: r2)
      else if c = '[' then
        match skipWs rest with
        | [] => none
        | c2 :: r2 =>
          if c2 = ']' then some (.arr [], r2)
          else parseRun fuel .elems (c2 :: r2)
      else if c = '"' then
        (parseStringBody fuel rest).map (fun p => (JValue.str p.1, p.2))
      else if c = 't' then
        if ('r' :: 'u' :: 'e' :: []).isPrefixOf rest then some (.bool true, rest.drop 3)
        else none
      else if c = 'f' then
        if ('a' :: 'l' :: 's' :: 'e' :: []).isPrefixOf rest then some (.bool false, rest.drop 4)
        else none
      else if c = 'n' then
        if ('u' :: 'l' :: 'l' :: []).isPrefixOf rest then some (.null, rest.drop 3)
        else none
      else if c = '-' then
        match spanDigits rest with
        | ([], _) => none
        | (ds, r) => some (.num (-(digitsToNat ds : Int)), r)
      else if c.isDigit then
        match spanDigits (c :: rest) with
        | (ds, r) => some (.num ((digitsToNat ds : Int)), r)
      else none
  | Nat.succ fuel, PMode.members, s =>
    match skipWs s with
    | [] => none
    | c :: rest =>
      if c = '"' then
        match parseStringBody fuel rest with
        | none => none
        | some (k, r1) =>
          match skipWs r1 with
          | [] => none
          | c2 :: r2 =>
            if c2 = ':' then
              match parseRun fuel .value r2 with
              | none => none
              | some (v, r3) =>
                match skipWs r3 with
                | [] => none
                | c3 :: r4 =>
                  if c3 = ',' then
                    match parseRun fuel .members r4 with
                    | some (JValue.obj ms, r5) => some (.obj ((k, v) :: ms), r5)
                    | _ => none
                  else if c3 = '}' then some (.obj ((k, v) :: []), r4)
                  else none
            else none
      else none
  | Nat.succ fuel, PMode.elems, s =>
    match parseRun fuel .value s with
    | none => none
    | some (v, r) =>
      match skipWs r with
      | [] => none
      | c :: r2 =>
        if c = ',' then
          match parseRun fuel .elems r2 with
          | some (JValue.arr vs, r3) => some (.arr (v :: vs), r3)
          | _ => none
        else if c = ']' then some (.arr (v :: []), r2)
        else none

/-- Parse of `json.load` on the whole decoded text: one value, optionally
surrounded by whitespace, reaching the end of input; `none` models a raised
`json.JSONDecodeError`. -/
def parseJson (s : List Char) : Option JValue :=
  match parseRun (2 * s.length + 2) .value s with
  | some (v, rest) => if skipWs rest = [] then some v else none
  | none => none

/-- Character escaping of `json.dump` with `ensure_ascii=False`: only the
quote, the backslash and control characters are escaped; of the latter the
program's documents can only contain the named ones. -/
def escChar (c : Char) : List Char :=
  if c = '"' then '\\' :: '"' :: []
  else if c = '\\' then '\\' :: '\\' :: []
  else if c = '\n' then '\\' :: 'n' :: []
  else if c = '\t' then '\\' :: 't' :: []
  else if c = '\r' then '\\' :: 'r' :: []
  else if c.toNat = 8 then '\\' :: 'b' :: []
  else if c.toNat = 12 then '\\' :: 'f' :: []
  else c :: []

def printStrEsc : List Char → List Char
  | [] => []
  | c :: rest => escChar c ++ printStrEsc rest

/-- A printed JSON string literal. -/
def printQStr (s : List Char) : List Char := '"' :: (printStrEsc s ++ '"' :: [])

def indentN (n : Nat) : List Char := List.replicate n ' '

def printBoolLit (b : Bool) : List Char :=
  if b then 't' :: 'r' :: 'u' :: 'e' :: [] else 'f' :: 'a' :: 'l' :: 's' :: 'e' :: []

/-- Members of a non-empty object under `indent=2`: each item on its own
line at indentation `ind`, separated by `","` plus a newline (Python's
item separator is `','` and its key separator `': '` when an indent is
given). -/
def printMembers {α : Type} (pv : α → List Char) (ind : Nat) :
    List (List Char × α) → List Char
  | [] => []
  | (k, v) :: [] => indentN ind ++ (printQStr k ++ ':' :: ' ' :: pv v)
  | (k, v) :: rest =>
    indentN ind ++ (printQStr k ++ ':' :: ' ' :: (pv v ++ ',' :: '\n' :: printMembers pv ind rest))

/-- A dict printed at nesting level `lvl` under `indent=2`: `"{}"` when
empty, otherwise the members at indentation `2*(lvl+1)` with the closing
brace at `2*lvl`. -/
def printObj {α : Type} (pv : α → List Char) (lvl : Nat)
    (l : List (List Char × α)) : List Char :=
  match l with
  | [] => '{' :: '}' :: []
  | _ :: _ =>
    '{' :: '\n' :: (printMembers pv (2 * (lvl + 1)) l ++ '\n' :: (indentN (2 * lvl) ++ '}' :: []))

def printStrMap (lvl : Nat) (m : List (List Char × List Char)) : List Char :=
  printObj printQStr lvl m

def printBoolMap (lvl : Nat) (m : List (List Char × Bool)) : List Char :=
  printObj printBoolLit lvl m

def printMemoMap (lvl : Nat) (m : List (List Char × List (List Char × List Char))) :
    List Char :=
  printObj (printStrMap (lvl + 1)) lvl m

/-- A string-to-string dict as a parsed JSON value. -/
def encStrMap (m : List (List Char × List Char)) : JValue :=
  .obj (m.map (fun kv => (kv.1, .str kv.2)))

/-- A string-to-bool dict as a parsed JSON value. -/
def encBoolMap (m : List (List Char × Bool)) : JValue :=
  .obj (m.map (fun kv => (kv.1, .bool kv.2)))

/-- The memos dict as a parsed JSON value. -/
def encMemoMap (m : List (List Char × List (List Char × List Char))) : JValue :=
  .obj (m.map (fun kv => (kv.1, encStrMap kv.2)))

/-- The five top-level members in source order (src/bot.py 37-43, 264-269),
each with its printed text (at level 1) and its parsed value. -/
def docPairs (st : BotState) : List (List Char × (List Char × JValue)) :=
  [("nicknames".toList, (printStrMap 1 st.nicknames, encStrMap st.nicknames)),
    ("greeting_prefs".toList, (printBoolMap 1 st.greeting_prefs, encBoolMap st.greeting_prefs)),
    ("silent_prefs".toList, (printBoolMap 1 st.silent_prefs, encBoolMap st.silent_prefs)),
    ("memos".toList, (printMemoMap 1 st.memos, encMemoMap st.memos)),
    ("model_prefs".toList, (printStrMap 1 st.model_prefs, encStrMap st.model_prefs))]

/-- The exact text `json.dump(data, f, ensure_ascii=False, indent=2)` writes
for the five-map document. -/
def printDoc (st : BotState) : List Char := printObj Prod.fst 0 (docPairs st)

/-- The document as `json.load` rebuilds it. -/
def encodeDoc (st : BotState) : JValue :=
  .obj ((docPairs st).map (fun kv => (kv.1, kv.2.2)))

/-- The module constant `DEFAULT_DATA` (src/bot.py 37-43) as a JSON value:
five empty maps. -/
def DEFAULT_DATA_J : JValue :=
  .obj [("nicknames".toList, .obj []), ("greeting_prefs".toList, .obj []),
    ("silent_prefs".toList, .obj []), ("memos".toList, .obj []),
    ("model_prefs".toList, .obj [])]

/-- Exceptions `load_data` can propagate: `UnicodeDecodeError` (a
`ValueError`) raised while reading a file that is not valid UTF-8 — it is
not in the caught tuple `(json.JSONDecodeError, OSError)`. -/
inductive PyExc where
  | unicodeDecodeError
deriving DecidableEq

/-- Observable state of the storage file when `load_data` runs. -/
inductive FileState where
  | absent
  | osError
  | badUtf8
  | text (content : List Char)

/-- Embedding of `load_data` (src/bot.py 50-58): missing file, OS errors and
JSON parse failures fall back to the (copied) default document; a
successfully parsed value is returned as-is with no schema validation; a
non-UTF-8 file raises `UnicodeDecodeError`, which the `except` clause does
not catch. -/
def load_data : FileState → Except PyExc JValue
  | .absent => .ok DEFAULT_DATA_J
  | .osError => .ok DEFAULT_DATA_J
  | .badUtf8 => .error .unicodeDecodeError
  | .text s =>
    match parseJson s with
    | some v => .ok v
    | none => .ok DEFAULT_DATA_J

/-- Embedding of `atomic_write_json DATA_FILE` (src/bot.py 61-66) on the
five-map document: after the temporary write and the atomic `os.replace`,
the file holds exactly the serialised text. -/
def atomic_write_json (st : BotState) : FileState := .text (printDoc st)

/-- Validity of a stored character for the round-trip law: printable, or one
of the control characters the printer escapes by name. -/
def validChar (c : Char) : Bool :=
  (32 ≤ c.toNat) || c = '\n' || c = '\t' || c = '\r' || c.toNat = 8 || c.toNat = 12

def validStr (s : List Char) : Bool := s.all validChar

def validStrMap (m : List (List Char × List Char)) : Bool :=
  m.all (fun kv => validStr kv.1 && validStr kv.2)

def validBoolMap (m : List (List Char × Bool)) : Bool :=
  m.all (fun kv => validStr kv.1)

/-- A valid preference document: every key and every stored string consists
of valid characters. -/
def docValid (st : BotState) : Bool :=
  validStrMap st.nicknames && validBoolMap st.greeting_prefs &&
    validBoolMap st.silent_prefs &&
    st.memos.all (fun kv => validStr kv.1 && validStrMap kv.2) &&
    validStrMap st.model_prefs

/-- Specification bundle used by the round-trip proof: the printed form of a
sub-document `v` parses back (with any sufficient fuel and any trailing
input) to its parsed value `enc v`, and starts with a non-whitespace
character. -/
def ParsesTo {α : Type} (pv : α → List Char) (enc : α → JValue) (v : α) : Prop :=
  (∀ fuel rest, (pv v).length ≤ fuel →
    parseRun fuel .value (pv v ++ rest) = some (enc v, rest)) ∧
  ∀ r, skipWs (pv v ++ r) = pv v ++ r

/-! ## Theorems -/

theorem isPrefixOf_true {l s : List Char} (h : l <+: s) : l.isPrefixOf s = true :=
  List.isPrefixOf_iff_prefix.mpr h

theorem isPrefixOf_false {l s : List Char} (h : ¬ l <+: s) : l.isPrefixOf s = false := by
  cases hb : l.isPrefixOf s
  · rfl
  · exact absurd (List.isPrefixOf_iff_prefix.mp hb) h

theorem leadingMarkers_step {s : List Char} (h : marker.isPrefixOf s = true) :
    leadingMarkers s = 1 + leadingMarkers (s.drop 8) := by
  rw [leadingMarkers, h]
  rfl

theorem leadingMarkers_zero {s : List Char} (h : marker.isPrefixOf s = false) :
    leadingMarkers s = 0 := by
  rw [leadingMarkers, h]
  rfl

theorem leadingMarkers_ne_zero {s : List Char} (h : marker.isPrefixOf s = true) :
    leadingMarkers s ≠ 0 := by
  rw [leadingMarkers_step h]
  omega

/-- The marker cannot start at a position where `'、'` sits within its first
eight characters: `'、'` does not occur in `"@silent\n"`. -/
theorem marker_not_prefix_comma_short (a x : List Char) (h : a.length < 8) :
    ¬ marker <+: (a ++ '、' :: x) := by
  intro hp
  have haM : a <+: marker := by
    refine List.prefix_of_prefix_length_le (List.prefix_append a ('、' :: x)) hp ?_
    have hm : marker.length = 8 := rfl
    omega
  obtain ⟨t, ht⟩ := haM
  obtain ⟨u, hu⟩ := hp
  rw [← ht, List.append_assoc] at hu
  have h2 : t ++ u = '、' :: x := List.append_cancel_left hu
  cases t with
  | nil =>
    have : a = marker := by simpa using ht
    have hm : marker.length = 8 := rfl
    rw [this, hm] at h
    omega
  | cons c t' =>
    have hc : c = '、' := by
      have := h2
      simp only [List.cons_append] at this
      exact (List.cons.injEq _ _ _ _).mp this |>.1
    have hmem : ('、' : Char) ∈ marker := by
      rw [← ht, hc.symm]
      exact List.mem_append_right a (List.mem_cons_self c _)
    exact absurd hmem (by decide)

/-- Whether the marker is a prefix of `a ++ r` depends only on `a` once `a`
is at least as long as the marker. -/
theorem marker_prefix_append (a r : List Char) (h : 8 ≤ a.length) :
    marker.isPrefixOf (a ++ r) = marker.isPrefixOf a := by
  have hm : marker.length = 8 := rfl
  by_cases hp : marker <+: a
  · rw [isPrefixOf_true hp, isPrefixOf_true (hp.trans (List.prefix_append a r))]
  · rw [isPrefixOf_false hp, isPrefixOf_false ?_]
    intro hq
    exact hp (List.prefix_of_prefix_length_le hq (List.prefix_append a r) (by omega))

theorem not_marker_prefix_comma_head (x : List Char) :
    marker.isPrefixOf ('、' :: x) = false := rfl

/-- The run of leading silent markers in `a ++ '、' :: x` never extends past
the `'、'`, so it does not depend on `x`. -/
theorem leadingMarkers_comma_aux :
    ∀ (n : Nat) (a x y : List Char), a.length ≤ n →
      leadingMarkers (a ++ '、' :: x) = leadingMarkers (a ++ '、' :: y) := by
  intro n
  induction n with
  | zero =>
    intro a x y ha
    have haz : a = [] := List.eq_nil_of_length_eq_zero (Nat.le_zero.mp ha)
    subst haz
    simp only [List.nil_append]
    rw [leadingMarkers_zero (not_marker_prefix_comma_head x),
      leadingMarkers_zero (not_marker_prefix_comma_head y)]
  | succ n ih =>
    intro a x y ha
    by_cases hlen : 8 ≤ a.length
    · have hx : marker.isPrefixOf (a ++ '、' :: x) = marker.isPrefixOf a :=
        marker_prefix_append a _ hlen
      have hy : marker.isPrefixOf (a ++ '、' :: y) = marker.isPrefixOf a :=
        marker_prefix_append a _ hlen
      cases hpa : marker.isPrefixOf a with
      | false =>
        rw [leadingMarkers_zero (hx.trans hpa),
          leadingMarkers_zero (hy.trans hpa)]
      | true =>
        rw [leadingMarkers_step (hx.trans hpa), leadingMarkers_step (hy.trans hpa),
          List.drop_append_of_le_length hlen, List.drop_append_of_le_length hlen]
        have hrec : (a.drop 8).length ≤ n := by
          simp only [List.length_drop]
          omega
        rw [ih (a.drop 8) x y hrec]
    · rw [leadingMarkers_zero
        (isPrefixOf_false (marker_not_prefix_comma_short a x (by omega))),
        leadingMarkers_zero
        (isPrefixOf_false (marker_not_prefix_comma_short a y (by omega)))]

theorem leadingMarkers_comma (a x : List Char) :
    leadingMarkers (a ++ '、' :: x) = leadingMarkers (a ++ '、' :: []) :=
  leadingMarkers_comma_aux a.length a x [] le_rfl

/-- After the silent step with the flag on, the string always starts with
the marker. -/
theorem silentStep_marked {p : Prefs} (hs : p.silent = true) (s : List Char) :
    marker.isPrefixOf (silentStep p s) = true := by
  unfold silentStep
  rw [hs]
  simp only [if_true]
  cases hm : marker.isPrefixOf s with
  | true => simp [hm]
  | false =>
    simp only [hm, Bool.false_eq_true, if_false]
    exact isPrefixOf_true (List.prefix_append marker s)

theorem silentStep_idem (p : Prefs) (s : List Char) :
    silentStep p (silentStep p s) = silentStep p s := by
  cases hs : p.silent with
  | false => unfold silentStep; rw [hs]; simp
  | true =>
    conv_lhs => rw [silentStep, hs]
    rw [if_pos rfl, silentStep_marked hs s]
    simp

theorem leadingMarkers_silentStep {p : Prefs} (hs : p.silent = true) (s : List Char) :
    leadingMarkers (silentStep p s) =
      if leadingMarkers s = 0 then 1 else leadingMarkers s := by
  unfold silentStep
  rw [hs]
  simp only [if_true]
  cases hm : marker.isPrefixOf s with
  | true =>
    simp only [hm, if_true]
    rw [if_neg (leadingMarkers_ne_zero hm)]
  | false =>
    simp only [hm, Bool.false_eq_true, if_false]
    rw [leadingMarkers_step (isPrefixOf_true (List.prefix_append marker s))]
    have hd : List.drop 8 (marker ++ s) = s := by
      have hml : marker.length = 8 := rfl
      rw [← hml, List.drop_left]
    rw [hd, leadingMarkers_zero hm, if_pos rfl]

/-- C2 counterexample: with greeting enabled and stored nickname `"Aki"`,
composing the base reply `"hello"` does *not* yield `"Aki, hello"`
(nickname, ASCII comma, space, base text): `reply_helper` uses the
ideographic comma `'、'` with no space. -/
theorem reply_aki_counterexample :
    composeReply prefsAki ('F' :: []) ('h' :: 'e' :: 'l' :: 'l' :: 'o' :: []) ≠
      ('A' :: 'k' :: 'i' :: ',' :: ' ' :: 'h' :: 'e' :: 'l' :: 'l' :: 'o' :: []) := by
  decide

/-- C2 (amended): with greeting enabled and stored nickname `"Aki"`,
composing the base reply `"hello"` yields exactly `"Aki、hello"` (nickname,
ideographic comma U+3001, no space, base text); with the silent flag also
enabled it yields exactly `"@silent\nAki、hello"` (the silent marker, a
line break, then the greeting-prefixed text), the greeting prefix being
applied before the silent prefix. -/
theorem reply_aki_exact :
    composeReply prefsAki ('F' :: []) ('h' :: 'e' :: 'l' :: 'l' :: 'o' :: []) =
      ('A' :: 'k' :: 'i' :: '、' :: 'h' :: 'e' :: 'l' :: 'l' :: 'o' :: []) ∧
    composeReply prefsAkiSilent ('F' :: []) ('h' :: 'e' :: 'l' :: 'l' :: 'o' :: []) =
      ('@' :: 's' :: 'i' :: 'l' :: 'e' :: 'n' :: 't' :: '\n' ::
        'A' :: 'k' :: 'i' :: '、' :: 'h' :: 'e' :: 'l' :: 'l' :: 'o' :: []) := by
  exact ⟨rfl, rfl⟩

/-- C5: for every preference record (any combination of greeting and silent
flags, any stored nickname) and every base string, applying the
reply-composition pipeline to its own output leaves the number of leading
silent-marker prefixes unchanged: the pipeline never double-prefixes the
silent marker. -/
theorem composeReply_silent_idem (p : Prefs) (fb s : List Char) :
    leadingMarkers (composeReply p fb (composeReply p fb s)) =
      leadingMarkers (composeReply p fb s) := by
  cases hg : p.greeting <;> cases hs : p.silent
  · simp [composeReply, greetStep, silentStep, hg, hs]
  · have h1 : composeReply p fb s = silentStep p s := by
      unfold composeReply greetStep
      rw [hg]
      simp
    have h2 : composeReply p fb (composeReply p fb s) = silentStep p (silentStep p s) := by
      rw [h1]
      unfold composeReply greetStep
      rw [hg]
      simp
    rw [h2, h1, silentStep_idem]
  · have hstep : ∀ X, composeReply p fb X = (p.nickname.getD fb) ++ '、' :: X := by
      intro X
      unfold composeReply greetStep silentStep
      rw [hg, hs]
      simp
    simp only [hstep]
    rw [leadingMarkers_comma (p.nickname.getD fb) ((p.nickname.getD fb) ++ '、' :: s),
      leadingMarkers_comma (p.nickname.getD fb) s]
  · have hgreet : ∀ X, greetStep p fb X = (p.nickname.getD fb) ++ '、' :: X := by
      intro X
      unfold greetStep
      rw [hg]
      simp
    simp only [composeReply, hgreet]
    rw [leadingMarkers_silentStep hs, leadingMarkers_silentStep hs,
      leadingMarkers_comma (p.nickname.getD fb)
        (silentStep p ((p.nickname.getD fb) ++ '、' :: s)),
      leadingMarkers_comma (p.nickname.getD fb) s]

theorem removeFirst_cons_self (x : TimerEntry) (xs : List TimerEntry) :
    removeFirst (x :: xs) x = xs := by
  simp [removeFirst]

theorem removeFirst_cons_ne {x t : TimerEntry} (xs : List TimerEntry) (h : x ≠ t) :
    removeFirst (x :: xs) t = x :: removeFirst xs t := by
  simp [removeFirst, h]

theorem foldl_removeFirst_cons (d : List TimerEntry) :
    ∀ (x : TimerEntry) (l : List TimerEntry), (∀ t ∈ d, x ≠ t) →
      d.foldl removeFirst (x :: l) = x :: d.foldl removeFirst l := by
  induction d with
  | nil =>
    intro x l _
    rfl
  | cons t ts ih =>
    intro x l h
    rw [List.foldl_cons, List.foldl_cons,
      removeFirst_cons_ne l (h t (List.mem_cons_self t ts))]
    exact ih x (removeFirst l t) (fun u hu => h u (List.mem_cons_of_mem t hu))

/-- Iterating `list.remove` over the members of `filter p l` (each removing
the first occurrence) deletes exactly the `p`-occurrences of `l`. -/
theorem foldl_removeFirst_filter (p : TimerEntry → Bool) :
    ∀ l : List TimerEntry, (l.filter p).foldl removeFirst l = l.filter (fun t => ! p t) := by
  intro l
  induction l with
  | nil => rfl
  | cons x xs ih =>
    cases hp : p x with
    | true =>
      simp only [List.filter_cons, hp, if_true, Bool.not_true, Bool.false_eq_true, if_false]
      rw [List.foldl_cons, removeFirst_cons_self, ih]
    | false =>
      simp only [List.filter_cons, hp, Bool.false_eq_true, if_false, Bool.not_false, if_true]
      rw [foldl_removeFirst_cons (xs.filter p) x xs ?_, ih]
      intro t ht heq
      rw [heq] at hp
      rw [(List.mem_filter.mp ht).2] at hp
      exact Bool.true_eq_false.mp hp

theorem tick_remaining (env : DeliveryEnv) (d : List TimerEntry) :
    ∀ acc : TickResult,
      (d.foldl (tickStep env) acc).remaining = d.foldl removeFirst acc.remaining := by
  induction d with
  | nil =>
    intro acc
    rfl
  | cons t ts ih =>
    intro acc
    rw [List.foldl_cons, List.foldl_cons, ih]
    rfl

theorem tick_attempts (env : DeliveryEnv) (d : List TimerEntry) :
    ∀ acc : TickResult,
      (d.foldl (tickStep env) acc).attempts =
        acc.attempts ++
          (d.filter (fun t => isTextLike (env.resolve t.channel_id))).map
            (fun t => (t, env.send t.channel_id (timerPayload env t))) := by
  induction d with
  | nil =>
    intro acc
    simp
  | cons t ts ih =>
    intro acc
    rw [List.foldl_cons, ih]
    cases hc : isTextLike (env.resolve t.channel_id) <;>
      simp [tickStep, List.filter_cons, hc]

/-- C4: for every pending list and instant `now`, one `check_timers` pass
removes exactly the entries with `dueTime ≤ now`: the remaining list is
precisely the not-yet-due entries unchanged and in order; every occurrence
of an entry is either fired (it is in the due list, exactly once per
occurrence) or still pending; and a repeated tick at the same `now` fires
nothing and changes nothing. -/
theorem check_timers_spec (env : DeliveryEnv) (timers : List TimerEntry) (now : Int) :
    (check_timers env timers now).remaining =
      timers.filter (fun t => ! decide (t.time ≤ now)) ∧
    (∀ t : TimerEntry,
      timers.count t = (dueList timers now).count t +
        (check_timers env timers now).remaining.count t) ∧
    check_timers env (check_timers env timers now).remaining now =
      ⟨[], (check_timers env timers now).remaining⟩ := by
  have hrem : (check_timers env timers now).remaining =
      timers.filter (fun t => ! decide (t.time ≤ now)) := by
    unfold check_timers dueList
    rw [tick_remaining]
    exact foldl_removeFirst_filter _ timers
  refine ⟨hrem, ?_, ?_⟩
  · intro t
    rw [hrem]
    unfold dueList
    cases hp : decide (t.time ≤ now) with
    | true =>
      have hz : (timers.filter (fun u => ! decide (u.time ≤ now))).count t = 0 := by
        refine List.count_eq_zero.mpr ?_
        intro hmem
        have h2 := (List.mem_filter.mp hmem).2
        simp [hp] at h2
      rw [@List.count_filter _ _ _ (fun u => decide (u.time ≤ now)) t timers hp, hz]
      omega
    | false =>
      have hz : (timers.filter (fun u => decide (u.time ≤ now))).count t = 0 := by
        refine List.count_eq_zero.mpr ?_
        intro hmem
        have h2 := (List.mem_filter.mp hmem).2
        simp [hp] at h2
      rw [hz, @List.count_filter _ _ _ (fun u => ! decide (u.time ≤ now)) t timers
        (by simp [hp])]
      omega
  · rw [hrem]
    have hdue : dueList (timers.filter (fun t => ! decide (t.time ≤ now))) now = [] := by
      unfold dueList
      rw [List.filter_filter]
      have hfalse : ∀ u : TimerEntry,
          (decide (u.time ≤ now) && ! decide (u.time ≤ now)) = false := by
        intro u
        cases decide (u.time ≤ now) <;> rfl
      calc (timers.filter fun a => decide (a.time ≤ now) && !decide (a.time ≤ now))
          = timers.filter (fun _ => false) := by
            apply List.filter_congr
            intro u _
            rw [hfalse u]
        _ = [] := List.filter_false timers
    unfold check_timers
    rw [hdue]
    rfl

/-- C9 counterexample: an entry due at `now` whose channel reference no
longer resolves (`get_channel` returns `None`) is removed from the pending
set without any delivery attempt having been made for it. -/
theorem check_timers_no_attempt_counterexample :
    entryDue.time ≤ 0 ∧
    (check_timers envNoChannel [entryDue] 0).attempts = [] ∧
    (check_timers envNoChannel [entryDue] 0).remaining = [] := by
  decide

/-- C9 (amended): during `tick(now)` a delivery attempt is made exactly for
the due entries whose channel reference resolves to a text channel or
thread, one attempt each, in order; the send outcome (success or caught
exception) is recorded and never propagated; and the resulting pending
list does not depend on the delivery environment at all, so entries whose
channel fails to resolve are removed without an attempt and failures do
not prevent removal. -/
theorem check_timers_delivery (env : DeliveryEnv) (timers : List TimerEntry) (now : Int) :
    (check_timers env timers now).attempts =
      ((dueList timers now).filter (fun t => isTextLike (env.resolve t.channel_id))).map
        (fun t => (t, env.send t.channel_id (timerPayload env t))) ∧
    ∀ env' : DeliveryEnv,
      (check_timers env' timers now).remaining =
        (check_timers env timers now).remaining := by
  constructor
  · unfold check_timers
    rw [tick_attempts]
    rfl
  · intro env'
    unfold check_timers
    rw [tick_remaining, tick_remaining]

/-- C6: a `/timer` request of 0 hours and 0 minutes is rejected with the
descriptive reply and leaves the pending list unchanged; a request of
1 hour 30 minutes at instant `now` appends exactly one entry due at
`now + 90` minutes. -/
theorem timer_cmd_spec (m : Option (List Char)) (now : Int) (chan uid : Nat)
    (timers : List TimerEntry) :
    timer_cmd 0 0 m now chan uid timers = (.error timerRejectMsg, timers) ∧
    timer_cmd 1 30 m now chan uid timers =
      (.ok (), timers ++
        [⟨now + 90 * 60 * 1000000, chan, uid, m.getD defaultTimerMsg⟩]) := by
  constructor
  · rfl
  · simp only [timer_cmd]
    rw [if_neg (by simp)]
    norm_num

/-- C7: `/alarm` appends one entry whose due instant is the wall-clock
`hour:minute` in the configured (fixed-offset) zone, advanced by exactly
one calendar day when today's occurrence is not strictly after now, and
that due instant is always strictly after the current instant. -/
theorem alarm_strictly_future (hour minute : Nat) (nowL : LocalDT) (offset : Int)
    (m : Option (List Char)) (chan uid : Nat) (timers : List TimerEntry)
    (hh : hour ≤ 23) (hmin : minute ≤ 59)
    (h0 : 0 ≤ nowL.tod) (h1 : nowL.tod < microsPerDay) :
    alarm_cmd hour minute m nowL offset chan uid timers =
      timers ++ [⟨alarmDueUtc hour minute nowL offset, chan, uid,
        m.getD defaultAlarmMsg⟩] ∧
    nowL.toMicros - offset < alarmDueUtc hour minute nowL offset := by
  refine ⟨rfl, ?_⟩
  have key : nowL.toMicros < (alarmTargetLocal hour minute nowL).toMicros := by
    unfold alarmTargetLocal
    by_cases hc : (replaceHM nowL hour minute).toMicros ≤ nowL.toMicros
    · rw [if_pos hc]
      simp only [LocalDT.toMicros, replaceHM, microsPerDay] at *
      omega
    · rw [if_neg hc]
      omega
  simp only [alarmDueUtc]
  omega

theorem dictGet_eq_none_of_not_mem {α : Type} (k : List Char) :
    ∀ l : List (List Char × α), k ∉ l.map Prod.fst → dictGet k l = none := by
  intro l
  induction l with
  | nil =>
    intro
    rfl
  | cons kv rest ih =>
    intro h
    simp only [List.map_cons, List.mem_cons, not_or] at h
    simp only [dictGet]
    rw [if_neg (fun he => h.1 he.symm)]
    exact ih h.2

/-- Popping a key from a dict (unique keys) makes a subsequent lookup of
that key miss. -/
theorem dictGet_popKey_self {α : Type} (k : List Char) :
    ∀ l : List (List Char × α), keysNodup l → dictGet k (popKey k l) = none := by
  intro l
  induction l with
  | nil =>
    intro
    rfl
  | cons kv rest ih =>
    intro hnd
    simp only [keysNodup, List.map_cons, List.nodup_cons] at hnd
    by_cases he : kv.1 = k
    · simp only [popKey, if_pos he]
      apply dictGet_eq_none_of_not_mem
      rw [← he]
      exact hnd.1
    · simp only [popKey, if_neg he]
      simp only [dictGet]
      rw [if_neg he]
      exact ih hnd.2

/-- C1 counterexample: `/reset_my_settings` does not clear the memos map —
after resetting user `"7"`, the memo read for keyword `"k"` still returns
the stored content instead of the documented default (absent). -/
theorem reset_my_settings_counterexample :
    getMemo (reset_my_settings ['7'] stFull).1 ['7'] ('k' :: []) = some ('v' :: []) ∧
    (reset_my_settings ['7'] stFull).1.memos ≠ [] := by
  decide

/-- C1 (amended): `/reset_my_settings` removes the user's entry from four of
the five preference maps — nicknames, greeting flag, silent flag and model
choice — so every subsequent per-user read of those returns the documented
default, but it leaves the user's memos untouched; the new state is
persisted by a full-document save. -/
theorem reset_my_settings_spec (uid : List Char) (st : BotState)
    (h1 : keysNodup st.nicknames) (h2 : keysNodup st.greeting_prefs)
    (h3 : keysNodup st.silent_prefs) (h4 : keysNodup st.model_prefs) :
    getNickname (reset_my_settings uid st).1 uid = none ∧
    getGreeting (reset_my_settings uid st).1 uid = false ∧
    getSilent (reset_my_settings uid st).1 uid = false ∧
    getModel (reset_my_settings uid st).1 uid = defaultModel ∧
    (reset_my_settings uid st).1.memos = st.memos ∧
    (reset_my_settings uid st).2 = some (reset_my_settings uid st).1 := by
  refine ⟨?_, ?_, ?_, ?_, rfl, rfl⟩
  · exact dictGet_popKey_self uid st.nicknames h1
  · show (dictGet uid (popKey uid st.greeting_prefs)).getD false = false
    rw [dictGet_popKey_self uid st.greeting_prefs h2]
    rfl
  · show (dictGet uid (popKey uid st.silent_prefs)).getD false = false
    rw [dictGet_popKey_self uid st.silent_prefs h3]
    rfl
  · show (dictGet uid (popKey uid st.model_prefs)).getD defaultModel = defaultModel
    rw [dictGet_popKey_self uid st.model_prefs h4]
    rfl

/-- Witness for `reset_my_settings_spec` at the concrete state `stFull`. -/
theorem reset_my_settings_spec_witness :
    (keysNodup stFull.nicknames ∧ keysNodup stFull.greeting_prefs ∧
      keysNodup stFull.silent_prefs ∧ keysNodup stFull.model_prefs) ∧
    (getNickname (reset_my_settings ['7'] stFull).1 ['7'] = none ∧
      getGreeting (reset_my_settings ['7'] stFull).1 ['7'] = false ∧
      getSilent (reset_my_settings ['7'] stFull).1 ['7'] = false ∧
      getModel (reset_my_settings ['7'] stFull).1 ['7'] = defaultModel ∧
      (reset_my_settings ['7'] stFull).1.memos = stFull.memos ∧
      (reset_my_settings ['7'] stFull).2 = some (reset_my_settings ['7'] stFull).1) :=
  ⟨⟨by decide, by decide, by decide, by decide⟩,
    reset_my_settings_spec ['7'] stFull (by decide) (by decide) (by decide) (by decide)⟩

/-- C10: the defaulted `load_data` result is a shallow copy of the
module-level `DEFAULT_DATA` constant — a fresh outer dict whose five inner
maps are the very same objects as the constant's (the copied contents hold
identical references; in particular both present address 0 under
`"nicknames"`), so mutating an inner map in place through one defaulted
load result is observable through the module constant and through every
later defaulted load result. -/
theorem load_data_default_shallow :
    loadedAddr ≠ DEFAULT_DATA_addr ∧
    heapGet heapAfterLoad loadedAddr = heapGet heapAfterLoad DEFAULT_DATA_addr ∧
    dictGet "nicknames".toList (heapGet heapAfterLoad loadedAddr) = some (.ref 0) ∧
    dictGet "nicknames".toList (heapGet heapAfterLoad DEFAULT_DATA_addr) =
      some (.ref 0) ∧
    innerDict heapMutated DEFAULT_DATA_addr "nicknames".toList =
      [('7' :: [], .str "Aki".toList)] ∧
    innerDict (load_data_default heapMutated).1 (load_data_default heapMutated).2
      "nicknames".toList = [('7' :: [], .str "Aki".toList)] := by
  decide

/-- Witness for `alarm_strictly_future`: an alarm for 07:00 requested at
08:20 local time (UTC+9). -/
theorem alarm_strictly_future_witness :
    (7 : Nat) ≤ 23 ∧ (0 : Nat) ≤ 59 ∧
    (0 : Int) ≤ (LocalDT.mk 0 30000000000).tod ∧
    (LocalDT.mk 0 30000000000).tod < microsPerDay ∧
    (LocalDT.mk 0 30000000000).toMicros - 32400000000 <
      alarmDueUtc 7 0 (LocalDT.mk 0 30000000000) 32400000000 := by
  refine ⟨by decide, by decide, by decide, by decide, ?_⟩
  exact (alarm_strictly_future 7 0 ⟨0, 30000000000⟩ 32400000000 none 1 2 []
    (by decide) (by decide) (by decide) (by decide)).2

theorem skipWs_not_ws {c : Char} (h : isWs c = false) (r : List Char) :
    skipWs (c :: r) = c :: r := by
  simp [skipWs, h]

theorem skipWs_ws {c : Char} (h : isWs c = true) (r : List Char) :
    skipWs (c :: r) = skipWs r := by
  simp [skipWs, h]

theorem skipWs_newline (r : List Char) : skipWs ('\n' :: r) = skipWs r :=
  skipWs_ws (by decide) r

theorem skipWs_space (r : List Char) : skipWs (' ' :: r) = skipWs r :=
  skipWs_ws (by decide) r

theorem skipWs_indent (n : Nat) (r : List Char) :
    skipWs (indentN n ++ r) = skipWs r := by
  induction n with
  | zero => rfl
  | succ m ih =>
    rw [indentN, List.replicate_succ, List.cons_append, skipWs_space]
    exact ih

theorem skipWs_idem (s : List Char) : skipWs (skipWs s) = skipWs s := by
  induction s with
  | nil => rfl
  | cons c r ih =>
    cases hw : isWs c with
    | true => rw [skipWs_ws hw, ih]
    | false => rw [skipWs_not_ws hw, skipWs_not_ws hw]

theorem parseRun_value_skipWs (fuel : Nat) (s : List Char) :
    parseRun fuel .value s = parseRun fuel .value (skipWs s) := by
  cases fuel with
  | zero => rfl
  | succ f => simp only [parseRun, skipWs_idem]

theorem parseRun_members_skipWs (fuel : Nat) (s : List Char) :
    parseRun fuel .members s = parseRun fuel .members (skipWs s) := by
  cases fuel with
  | zero => rfl
  | succ f => simp only [parseRun, skipWs_idem]

/-- The scanner inverts the escaper: the printed body of a valid string,
followed by the closing quote, scans back to the original string. -/
theorem parseStringBody_print :
    ∀ s : List Char, validStr s = true →
      ∀ (fuel : Nat) (rest : List Char),
        (printStrEsc s).length + 1 ≤ fuel →
        parseStringBody fuel (printStrEsc s ++ '"' :: rest) = some (s, rest) := by
  intro s
  induction s with
  | nil =>
    intro _ fuel rest hf
    cases fuel with
    | zero => omega
    | succ f =>
      show parseStringBody (f + 1) ([] ++ '"' :: rest) = some ([], rest)
      simp [parseStringBody]
  | cons c cs ih =>
    intro hv fuel rest hf
    have hvpair : validChar c = true ∧ validStr cs = true := by
      simpa [validStr] using hv
    cases fuel with
    | zero => omega
    | succ f =>
      have hlen : (printStrEsc (c :: cs)).length =
          (escChar c).length + (printStrEsc cs).length := by
        simp [printStrEsc]
      rw [show printStrEsc (c :: cs) = escChar c ++ printStrEsc cs from rfl,
        List.append_assoc]
      by_cases hc1 : c = '"'
      · subst hc1
        have he : escChar '"' = '\\' :: '"' :: [] := by simp [escChar]
        have hb : (printStrEsc cs).length + 1 ≤ f := by
          rw [hlen, he] at hf
          simp at hf
          omega
        rw [he]
        simp [parseStringBody, ih hvpair.2 f rest hb]
      · by_cases hc2 : c = '\\'
        · subst hc2
          have he : escChar '\\' = '\\' :: '\\' :: [] := by simp [escChar]
          have hb : (printStrEsc cs).length + 1 ≤ f := by
            rw [hlen, he] at hf
            simp at hf
            omega
          rw [he]
          simp [parseStringBody, ih hvpair.2 f rest hb]
        · by_cases hc3 : c = '\n'
          · subst hc3
            have he : escChar '\n' = '\\' :: 'n' :: [] := by simp [escChar]
            have hb : (printStrEsc cs).length + 1 ≤ f := by
              rw [hlen, he] at hf
              simp at hf
              omega
            rw [he]
            simp [parseStringBody, ih hvpair.2 f rest hb]
          · by_cases hc4 : c = '\t'
            · subst hc4
              have he : escChar '\t' = '\\' :: 't' :: [] := by simp [escChar]
              have hb : (printStrEsc cs).length + 1 ≤ f := by
                rw [hlen, he] at hf
                simp at hf
                omega
              rw [he]
              simp [parseStringBody, ih hvpair.2 f rest hb]
            · by_cases hc5 : c = '\r'
              · subst hc5
                have he : escChar '\r' = '\\' :: 'r' :: [] := by simp [escChar]
                have hb : (printStrEsc cs).length + 1 ≤ f := by
                  rw [hlen, he] at hf
                  simp at hf
                  omega
                rw [he]
                simp [parseStringBody, ih hvpair.2 f rest hb]
              · by_cases hc6 : c.toNat = 8
                · have he : escChar c = '\\' :: 'b' :: [] := by
                    simp [escChar, hc1, hc2, hc3, hc4, hc5, hc6]
                  have hb : (printStrEsc cs).length + 1 ≤ f := by
                    rw [hlen, he] at hf
                    simp at hf
                    omega
                  have hcc : Char.ofNat 8 = c := by
                    rw [← hc6, Char.ofNat_toNat]
                  rw [he]
                  simp [parseStringBody, ih hvpair.2 f rest hb]
                  exact hcc
                · by_cases hc7 : c.toNat = 12
                  · have he : escChar c = '\\' :: 'f' :: [] := by
                      simp [escChar, hc1, hc2, hc3, hc4, hc5, hc6, hc7]
                    have hb : (printStrEsc cs).length + 1 ≤ f := by
                      rw [hlen, he] at hf
                      simp at hf
                      omega
                    have hcc : Char.ofNat 12 = c := by
                      rw [← hc7, Char.ofNat_toNat]
                    rw [he]
                    simp [parseStringBody, ih hvpair.2 f rest hb]
                    exact hcc
                  · have he : escChar c = c :: [] := by
                      simp [escChar, hc1, hc2, hc3, hc4, hc5, hc6, hc7]
                    have hb : (printStrEsc cs).length + 1 ≤ f := by
                      rw [hlen, he] at hf
                      simp at hf
                      omega
                    rw [he]
                    simp [parseStringBody, hc1, hc2, ih hvpair.2 f rest hb]

theorem parseRun_value_qstr (s : List Char) (h : validStr s = true) :
    ∀ (fuel : Nat) (rest : List Char), (printQStr s).length ≤ fuel →
      parseRun fuel .value (printQStr s ++ rest) = some (.str s, rest) := by
  intro fuel rest hf
  have hq : (printQStr s).length = (printStrEsc s).length + 2 := by
    simp [printQStr]
  cases fuel with
  | zero => omega
  | succ f =>
    have hb : (printStrEsc s).length + 1 ≤ f := by omega
    simp only [printQStr, List.cons_append, List.append_assoc, List.singleton_append]
    simp [parseRun, skipWs_not_ws (show isWs '"' = false by decide),
      parseStringBody_print s h f rest hb]

theorem parseRun_value_bool (b : Bool) :
    ∀ (fuel : Nat) (rest : List Char), (printBoolLit b).length ≤ fuel →
      parseRun fuel .value (printBoolLit b ++ rest) = some (.bool b, rest) := by
  intro fuel rest hf
  cases b with
  | false =>
    simp only [printBoolLit, Bool.false_eq_true, if_false, List.length_cons,
      List.length_nil] at hf
    cases fuel with
    | zero => omega
    | succ f =>
      show parseRun (f + 1) .value ('f' :: 'a' :: 'l' :: 's' :: 'e' :: rest) =
        some (.bool false, rest)
      simp [parseRun, skipWs_not_ws (show isWs 'f' = false by decide),
        List.isPrefixOf]
  | true =>
    simp only [printBoolLit, if_true, List.length_cons, List.length_nil] at hf
    cases fuel with
    | zero => omega
    | succ f =>
      show parseRun (f + 1) .value ('t' :: 'r' :: 'u' :: 'e' :: rest) =
        some (.bool true, rest)
      simp [parseRun, skipWs_not_ws (show isWs 't' = false by decide),
        List.isPrefixOf]

theorem parsesTo_qstr {s : List Char} (h : validStr s = true) :
    ParsesTo printQStr JValue.str s := by
  refine ⟨parseRun_value_qstr s h, ?_⟩
  intro r
  simp only [printQStr, List.cons_append]
  rw [skipWs_not_ws (by decide)]

theorem parsesTo_bool (b : Bool) : ParsesTo printBoolLit JValue.bool b := by
  refine ⟨parseRun_value_bool b, ?_⟩
  intro r
  cases b with
  | false => exact skipWs_not_ws (by decide) _
  | true => exact skipWs_not_ws (by decide) _

/-- Members of a printed non-empty dict parse back to the corresponding
association list, consuming everything up to and including the closing
brace. -/
theorem parseRun_members_print {α : Type} (pv : α → List Char) (enc : α → JValue) :
    ∀ l : List (List Char × α), l ≠ [] →
      (∀ kv ∈ l, validStr kv.1 = true ∧ ParsesTo pv enc kv.2) →
      ∀ (ind cInd fuel : Nat) (rest : List Char),
        (printMembers pv ind l).length + cInd + 2 ≤ fuel →
        parseRun fuel .members
          (printMembers pv ind l ++ '\n' :: (indentN cInd ++ '}' :: rest)) =
          some (.obj (l.map (fun kv => (kv.1, enc kv.2))), rest) := by
  intro l
  induction l with
  | nil =>
    intro h
    exact absurd rfl h
  | cons kv l' ih =>
    obtain ⟨k, v⟩ := kv
    intro _ hall ind cInd fuel rest hf
    obtain ⟨hk, hpv⟩ := hall (k, v) (List.mem_cons_self _ _)
    cases l' with
    | nil =>
      simp only [printMembers, printQStr, indentN, List.length_append,
        List.length_cons, List.length_replicate] at hf
      cases fuel with
      | zero => omega
      | succ f =>
        have hk1 : (printStrEsc k).length + 1 ≤ f := by omega
        have hv1 : (pv v).length ≤ f := by omega
        have hinput : printMembers pv ind ((k, v) :: []) ++
            '\n' :: (indentN cInd ++ '}' :: rest) =
            indentN ind ++ '"' :: (printStrEsc k ++ '"' ::
              (':' :: ' ' :: (pv v ++ '\n' :: (indentN cInd ++ '}' :: rest)))) := by
          simp [printMembers, printQStr, List.append_assoc]
        have hstr := parseStringBody_print k hk f
          (':' :: ' ' :: (pv v ++ '\n' :: (indentN cInd ++ '}' :: rest))) hk1
        have hval : parseRun f .value
            (' ' :: (pv v ++ '\n' :: (indentN cInd ++ '}' :: rest))) =
            some (enc v, '\n' :: (indentN cInd ++ '}' :: rest)) := by
          rw [parseRun_value_skipWs, skipWs_space, hpv.2]
          exact hpv.1 f _ hv1
        have hafter : skipWs ('\n' :: (indentN cInd ++ '}' :: rest)) = '}' :: rest := by
          rw [skipWs_newline, skipWs_indent, skipWs_not_ws (by decide)]
        rw [hinput]
        simp only [parseRun]
        rw [skipWs_indent, skipWs_not_ws (show isWs '"' = false by decide)]
        simp [hstr, skipWs_not_ws (show isWs ':' = false by decide), hval, hafter]
    | cons kv2 l'' =>
      obtain ⟨k2, v2⟩ := kv2
      simp only [printMembers, printQStr, indentN, List.length_append,
        List.length_cons, List.length_replicate] at hf
      cases fuel with
      | zero => omega
      | succ f =>
        have hk1 : (printStrEsc k).length + 1 ≤ f := by omega
        have hv1 : (pv v).length ≤ f := by omega
        have hih : (printMembers pv ind ((k2, v2) :: l'')).length + cInd + 2 ≤ f := by
          omega
        have hinput : printMembers pv ind ((k, v) :: (k2, v2) :: l'') ++
            '\n' :: (indentN cInd ++ '}' :: rest) =
            indentN ind ++ '"' :: (printStrEsc k ++ '"' ::
              (':' :: ' ' :: (pv v ++ ',' :: '\n' ::
                (printMembers pv ind ((k2, v2) :: l'') ++
                  '\n' :: (indentN cInd ++ '}' :: rest))))) := by
          simp [printMembers, printQStr, List.append_assoc]
        have hstr := parseStringBody_print k hk f
          (':' :: ' ' :: (pv v ++ ',' :: '\n' ::
            (printMembers pv ind ((k2, v2) :: l'') ++
              '\n' :: (indentN cInd ++ '}' :: rest)))) hk1
        have hval : parseRun f .value
            (' ' :: (pv v ++ ',' :: '\n' ::
              (printMembers pv ind ((k2, v2) :: l'') ++
                '\n' :: (indentN cInd ++ '}' :: rest)))) =
            some (enc v, ',' :: '\n' ::
              (printMembers pv ind ((k2, v2) :: l'') ++
                '\n' :: (indentN cInd ++ '}' :: rest))) := by
          rw [parseRun_value_skipWs, skipWs_space, hpv.2]
          exact hpv.1 f _ hv1
        have hmem : parseRun f .members
            ('\n' :: (printMembers pv ind ((k2, v2) :: l'') ++
              '\n' :: (indentN cInd ++ '}' :: rest))) =
            some (.obj (((k2, v2) :: l'').map (fun kv => (kv.1, enc kv.2))), rest) := by
          rw [parseRun_members_skipWs, skipWs_newline, ← parseRun_members_skipWs]
          exact ih (by simp) (fun kv hkv => hall kv (List.mem_cons_of_mem _ hkv))
            ind cInd f rest hih
        rw [hinput]
        simp only [parseRun]
        rw [skipWs_indent, skipWs_not_ws (show isWs '"' = false by decide)]
        simp [hstr, skipWs_not_ws (show isWs ':' = false by decide), hval,
          skipWs_not_ws (show isWs ',' = false by decide), hmem]

/-- The printed members of a non-empty dict always start with the indent and
an opening quote. -/
theorem printMembers_cons_shape {α : Type} (pv : α → List Char) (ind : Nat)
    (kv : List Char × α) (l' : List (List Char × α)) :
    ∃ t, ∀ X, printMembers pv ind (kv :: l') ++ X = indentN ind ++ '"' :: (t ++ X) := by
  obtain ⟨k, v⟩ := kv
  cases l' with
  | nil =>
    refine ⟨printStrEsc k ++ '"' :: ':' :: ' ' :: pv v, fun X => ?_⟩
    simp [printMembers, printQStr, List.append_assoc]
  | cons kv2 l'' =>
    refine ⟨printStrEsc k ++ '"' :: ':' :: ' ' ::
      (pv v ++ ',' :: '\n' :: printMembers pv ind (kv2 :: l'')), fun X => ?_⟩
    simp [printMembers, printQStr, List.append_assoc]

/-- A printed dict parses back (as a JSON value) to the corresponding object. -/
theorem parseRun_value_printObj {α : Type} (pv : α → List Char) (enc : α → JValue)
    (lvl : Nat) (l : List (List Char × α))
    (hall : ∀ kv ∈ l, validStr kv.1 = true ∧ ParsesTo pv enc kv.2) :
    ∀ (fuel : Nat) (rest : List Char), (printObj pv lvl l).length ≤ fuel →
      parseRun fuel .value (printObj pv lvl l ++ rest) =
        some (.obj (l.map (fun kv => (kv.1, enc kv.2))), rest) := by
  intro fuel rest hf
  cases l with
  | nil =>
    simp only [printObj, List.length_cons, List.length_nil] at hf
    cases fuel with
    | zero => omega
    | succ f =>
      show parseRun (f + 1) .value ('{' :: '}' :: rest) = some (.obj [], rest)
      simp [parseRun, skipWs_not_ws (show isWs '{' = false by decide),
        skipWs_not_ws (show isWs '}' = false by decide)]
  | cons kv l' =>
    simp only [printObj, indentN, List.length_cons, List.length_append,
      List.length_replicate, List.length_nil] at hf
    cases fuel with
    | zero => omega
    | succ f =>
      have hbound : (printMembers pv (2 * (lvl + 1)) (kv :: l')).length +
          2 * lvl + 2 ≤ f := by omega
      have hms := parseRun_members_print pv enc (kv :: l') (by simp) hall
        (2 * (lvl + 1)) (2 * lvl) f rest hbound
      obtain ⟨t, ht⟩ := printMembers_cons_shape pv (2 * (lvl + 1)) kv l'
      have hskw : skipWs (printMembers pv (2 * (lvl + 1)) (kv :: l') ++
          '\n' :: (indentN (2 * lvl) ++ '}' :: rest)) =
          '"' :: (t ++ '\n' :: (indentN (2 * lvl) ++ '}' :: rest)) := by
        rw [ht, skipWs_indent, skipWs_not_ws (by decide)]
      have hms2 : parseRun f .members
          ('"' :: (t ++ '\n' :: (indentN (2 * lvl) ++ '}' :: rest))) =
          some (.obj ((kv :: l').map (fun kv => (kv.1, enc kv.2))), rest) := by
        rw [← hskw, ← parseRun_members_skipWs]
        exact hms
      have hinput : printObj pv lvl (kv :: l') ++ rest =
          '{' :: '\n' :: (printMembers pv (2 * (lvl + 1)) (kv :: l') ++
            '\n' :: (indentN (2 * lvl) ++ '}' :: rest)) := by
        simp [printObj, List.append_assoc]
      rw [hinput]
      simp only [parseRun]
      rw [skipWs_not_ws (show isWs '{' = false by decide)]
      simp [skipWs_newline, hskw, hms2]

theorem skipWs_printObj {α : Type} (pv : α → List Char) (lvl : Nat)
    (l : List (List Char × α)) (r : List Char) :
    skipWs (printObj pv lvl l ++ r) = printObj pv lvl l ++ r := by
  cases l with
  | nil => exact skipWs_not_ws (by decide) _
  | cons kv l' => exact skipWs_not_ws (by decide) _

theorem parseRun_value_strMap (lvl : Nat) (m : List (List Char × List Char))
    (hm : validStrMap m = true) :
    ∀ (fuel : Nat) (rest : List Char), (printStrMap lvl m).length ≤ fuel →
      parseRun fuel .value (printStrMap lvl m ++ rest) = some (encStrMap m, rest) := by
  intro fuel rest hf
  have hall : ∀ kv ∈ m, validStr kv.1 = true ∧ ParsesTo printQStr JValue.str kv.2 := by
    intro kv hkv
    have hkv2 := List.all_eq_true.mp hm kv hkv
    simp only [Bool.and_eq_true] at hkv2
    exact ⟨hkv2.1, parsesTo_qstr hkv2.2⟩
  exact parseRun_value_printObj printQStr JValue.str lvl m hall fuel rest hf

theorem parsesTo_strMap (lvl : Nat) {m : List (List Char × List Char)}
    (hm : validStrMap m = true) : ParsesTo (printStrMap lvl) encStrMap m :=
  ⟨parseRun_value_strMap lvl m hm, fun r => skipWs_printObj printQStr lvl m r⟩

theorem parseRun_value_boolMap (lvl : Nat) (m : List (List Char × Bool))
    (hm : validBoolMap m = true) :
    ∀ (fuel : Nat) (rest : List Char), (printBoolMap lvl m).length ≤ fuel →
      parseRun fuel .value (printBoolMap lvl m ++ rest) = some (encBoolMap m, rest) := by
  intro fuel rest hf
  have hall : ∀ kv ∈ m, validStr kv.1 = true ∧ ParsesTo printBoolLit JValue.bool kv.2 := by
    intro kv hkv
    exact ⟨List.all_eq_true.mp hm kv hkv, parsesTo_bool kv.2⟩
  exact parseRun_value_printObj printBoolLit JValue.bool lvl m hall fuel rest hf

theorem parsesTo_boolMap (lvl : Nat) {m : List (List Char × Bool)}
    (hm : validBoolMap m = true) : ParsesTo (printBoolMap lvl) encBoolMap m :=
  ⟨parseRun_value_boolMap lvl m hm, fun r => skipWs_printObj printBoolLit lvl m r⟩

theorem parseRun_value_memoMap (lvl : Nat)
    (m : List (List Char × List (List Char × List Char)))
    (hm : m.all (fun kv => validStr kv.1 && validStrMap kv.2) = true) :
    ∀ (fuel : Nat) (rest : List Char), (printMemoMap lvl m).length ≤ fuel →
      parseRun fuel .value (printMemoMap lvl m ++ rest) = some (encMemoMap m, rest) := by
  intro fuel rest hf
  have hall : ∀ kv ∈ m, validStr kv.1 = true ∧
      ParsesTo (printStrMap (lvl + 1)) encStrMap kv.2 := by
    intro kv hkv
    have hkv2 := List.all_eq_true.mp hm kv hkv
    simp only [Bool.and_eq_true] at hkv2
    exact ⟨hkv2.1, parsesTo_strMap (lvl + 1) hkv2.2⟩
  exact parseRun_value_printObj (printStrMap (lvl + 1)) encStrMap lvl m hall fuel rest hf

/-- The full printed document parses back to the document's JSON value. -/
theorem parseRun_value_printDoc (st : BotState) (h : docValid st = true) :
    ∀ (fuel : Nat) (rest : List Char), (printDoc st).length ≤ fuel →
      parseRun fuel .value (printDoc st ++ rest) = some (encodeDoc st, rest) := by
  intro fuel rest hf
  have hx := h
  simp only [docValid, Bool.and_eq_true] at hx
  obtain ⟨⟨⟨⟨h1, h2⟩, h3⟩, h4⟩, h5⟩ := hx
  have hall : ∀ kv ∈ docPairs st, validStr kv.1 = true ∧
      ParsesTo Prod.fst Prod.snd kv.2 := by
    intro kv hkv
    simp only [docPairs, List.mem_cons, List.not_mem_nil, or_false] at hkv
    rcases hkv with rfl | rfl | rfl | rfl | rfl
    · exact ⟨show validStr "nicknames".toList = true by decide,
        (parsesTo_strMap 1 h1).1, fun r => skipWs_printObj _ 1 _ r⟩
    · exact ⟨show validStr "greeting_prefs".toList = true by decide,
        (parsesTo_boolMap 1 h2).1, fun r => skipWs_printObj _ 1 _ r⟩
    · exact ⟨show validStr "silent_prefs".toList = true by decide,
        (parsesTo_boolMap 1 h3).1, fun r => skipWs_printObj _ 1 _ r⟩
    · exact ⟨show validStr "memos".toList = true by decide,
        parseRun_value_memoMap 1 st.memos h4, fun r => skipWs_printObj _ 1 _ r⟩
    · exact ⟨show validStr "model_prefs".toList = true by decide,
        (parsesTo_strMap 1 h5).1, fun r => skipWs_printObj _ 1 _ r⟩
  exact parseRun_value_printObj Prod.fst Prod.snd 0 (docPairs st) hall fuel rest hf

theorem parseJson_printDoc (st : BotState) (h : docValid st = true) :
    parseJson (printDoc st) = some (encodeDoc st) := by
  have hmain := parseRun_value_printDoc st h (2 * (printDoc st).length + 2) [] (by omega)
  rw [List.append_nil] at hmain
  unfold parseJson
  rw [hmain]
  rfl

/-- C8: for every valid preference document, a full save
(`atomic_write_json`, i.e. `json.dump` of the five maps followed by the
atomic replace) followed by `load_data` returns exactly the saved
document's value (round-trip law). -/
theorem save_load_roundtrip (st : BotState) (h : docValid st = true) :
    load_data (atomic_write_json st) = Except.ok (encodeDoc st) := by
  show load_data (.text (printDoc st)) = Except.ok (encodeDoc st)
  simp [load_data, parseJson_printDoc st h]

/-- Witness for `save_load_roundtrip` at the concrete document `stFull`. -/
theorem save_load_roundtrip_witness :
    docValid stFull = true ∧
    load_data (atomic_write_json stFull) = Except.ok (encodeDoc stFull) :=
  ⟨by decide, save_load_roundtrip stFull (by decide)⟩

/-- C3 counterexample: `load_data` is not total and does not validate the
schema — a storage file holding bytes that are not valid UTF-8 makes it
raise `UnicodeDecodeError` (a `ValueError`, absent from the caught
`(json.JSONDecodeError, OSError)` tuple), and a file holding the valid
JSON text `"[]"`, which is not a document-schema value, is returned as-is
instead of the all-empty default. -/
theorem load_data_counterexample :
    load_data .badUtf8 = Except.error PyExc.unicodeDecodeError ∧
    load_data (.text ('[' :: ']' :: [])) = Except.ok (JValue.arr []) ∧
    JValue.arr [] ≠ DEFAULT_DATA_J := by
  refine ⟨rfl, rfl, ?_⟩
  intro hcontra
  simp [DEFAULT_DATA_J] at hcontra

/-- C3 (amended): `load_data` returns the all-empty default document when
the file is absent, when reading raises an `OSError`, or when the decoded
text fails to parse as JSON; a successfully parsed value is returned as-is
with no schema validation; and a file whose bytes are not valid UTF-8
makes it raise `UnicodeDecodeError` instead of returning. -/
theorem load_data_spec :
    load_data .absent = Except.ok DEFAULT_DATA_J ∧
    load_data .osError = Except.ok DEFAULT_DATA_J ∧
    (∀ s, parseJson s = none → load_data (.text s) = Except.ok DEFAULT_DATA_J) ∧
    (∀ s v, parseJson s = some v → load_data (.text s) = Except.ok v) ∧
    load_data .badUtf8 = Except.error PyExc.unicodeDecodeError := by
  refine ⟨rfl, rfl, ?_, ?_, rfl⟩
  · intro s hs
    simp [load_data, hs]
  · intro s v hs
    simp [load_data, hs]

/-- Witness for `load_data_spec`: the text `"x"` fails to parse and falls
back to the default; the text `"true"` parses and is returned as-is. -/
theorem load_data_spec_witness :
    (parseJson ('x' :: []) = none ∧
      load_data (.text ('x' :: [])) = Except.ok DEFAULT_DATA_J) ∧
    (parseJson ('t' :: 'r' :: 'u' :: 'e' :: []) = some (JValue.bool true) ∧
      load_data (.text ('t' :: 'r' :: 'u' :: 'e' :: [])) =
        Except.ok (JValue.bool true)) :=
  ⟨⟨rfl, load_data_spec.2.2.1 _ rfl⟩, ⟨rfl, load_data_spec.2.2.2.1 _ _ rfl⟩⟩

end Sikaku
